import Mathlib

/-!
Shallow embedding of `src/sources/kubernetes_logs/path_helpers.rs` in its POSIX
configuration (the `target_os` is not `windows`, the path separator is `/`).

Strings are modelled by Lean `String`; path-component iteration
(`Path::new(p).iter()` on Unix) is modelled explicitly: a leading separator
yields a root component `"/"`, a leading `"."` (alone or followed by a
separator) yields a `"."` component, and the remaining components are the
nonempty, non-`"."` chunks between separators.  `Path::join` is modelled by
string concatenation with a separator inserted, except that an absolute right
operand replaces the base, which is `PathBuf::push` semantics.
-/

namespace PathHelpers

/-- Embeds the Rust struct `LogFileInfo`: the information extracted from a pod
log file path. -/
structure LogFileInfo where
  pod_namespace : String
  pod_name : String
  pod_uid : String
  container_name : String
deriving DecidableEq

/-- Embeds `K8S_LOGS_DIR` / `get_k8s_logs_dir()`, POSIX branch. -/
def K8S_LOGS_DIR : String := "/var/log/pods"

/-- Whether a character list denotes an absolute Unix path (`Path::has_root`). -/
def hasRootL (l : List Char) : Bool := l.head? == some '/'

/-- Whether a Unix path starts with a current-directory component that
`Path::components` keeps: the path is exactly `"."` or starts with `"./"`. -/
def startsCurDirL (l : List Char) : Bool :=
  match l with
  | [] => false
  | c :: rest => c == '.' && (rest.isEmpty || rest.head? == some '/')

/-- The components of a Unix path, as `Path::iter()` yields them: an optional
root `"/"`, an optional leading `"."`, then every nonempty non-`"."` chunk
between separators.  Repeated and trailing separators produce empty chunks,
which are dropped, and interior `"."` chunks are dropped, exactly as the Rust
component iterator normalises them. -/
def pathComponentsL (l : List Char) : List (List Char) :=
  (if hasRootL l then [['/']] else []) ++
    (if startsCurDirL l then [['.']] else []) ++
      (l.splitOn '/').filter (fun s => !s.isEmpty && s != ['.'])

/-- `Path::new(p).iter()` as a list of strings. -/
def pathComponents (p : String) : List String :=
  (pathComponentsL p.data).map String.mk

/-- Embeds `parse_log_file_path`: walk the path components from the last one
backwards, discard the log file name, take the container name, split the pod
directory name on the underscore and take the first three fields.  The Rust
`to_str()` steps always succeed because the input is a valid UTF-8 `&str`, so
they are modelled as the identity. -/
def parse_log_file_path (path : String) : Option LogFileInfo :=
  match (pathComponents path).reverse with
  | _log_file_name :: container_name :: pod_dir :: _ =>
    match (pod_dir.data.splitOn '_').map String.mk with
    | pod_namespace :: pod_name :: pod_uid :: _ =>
      some ⟨pod_namespace, pod_name, pod_uid, container_name⟩
    | _ => none
  | _ => none

/-- Embeds `build_pod_logs_directory`: the directory name is the three
identity fields joined by underscores, and the result is
`Path::new(K8S_LOGS_DIR).join(dir_name)`.  `PathBuf::push` replaces the base
when the pushed path is absolute; otherwise, the base being nonempty and not
ending in a separator, it inserts one separator. -/
def build_pod_logs_directory (pod_namespace pod_name pod_uid : String) : String :=
  if hasRootL (pod_namespace ++ "_" ++ pod_name ++ "_" ++ pod_uid).data
  then pod_namespace ++ "_" ++ pod_name ++ "_" ++ pod_uid
  else K8S_LOGS_DIR ++ "/" ++ (pod_namespace ++ "_" ++ pod_name ++ "_" ++ pod_uid)

/-- A string that `Path::iter()` would yield as exactly one (normal) path
component: nonempty, not `"."`, and containing no separator. -/
def isOneSegment (s : String) : Prop :=
  s.data ≠ [] ∧ s.data ≠ ['.'] ∧ '/' ∉ s.data

instance (s : String) : Decidable (isOneSegment s) := by
  unfold isOneSegment; infer_instance

/-! Helper lemmas about the embedding, shared by the claim theorems. -/

theorem data_us : ("_" : String).data = ['_'] := rfl

theorem data_slash : ("/" : String).data = ['/'] := rfl

theorem data_root :
    K8S_LOGS_DIR.data = '/' :: ("var".data ++ '/' :: ("log".data ++ '/' :: "pods".data)) := by
  decide

theorem splitOn_sep_append (sep : Char) (xs : List Char) (h : ∀ x ∈ xs, x ≠ sep)
    (as : List Char) : (xs ++ sep :: as).splitOn sep = xs :: as.splitOn sep := by
  simp only [List.splitOn]
  exact List.splitOnP_first _ _ (by simpa using h) sep (by simp) as

theorem splitOn_sep_cons (sep : Char) (as : List Char) :
    (sep :: as).splitOn sep = [] :: as.splitOn sep := by
  simpa using splitOn_sep_append sep [] (by simp) as

theorem splitOn_no_sep (sep : Char) (xs : List Char) (h : ∀ x ∈ xs, x ≠ sep) :
    xs.splitOn sep = [xs] := by
  simp only [List.splitOn]
  exact List.splitOnP_eq_single _ _ (by simpa using h)

theorem filter_keep (s : List Char) (h0 : s ≠ []) (h1 : s ≠ ['.']) :
    (!s.isEmpty && s != ['.']) = true := by
  cases s with
  | nil => exact absurd rfl h0
  | cons x xs =>
    simp only [List.isEmpty_cons, Bool.not_false, Bool.true_and]
    exact bne_iff_ne.mpr h1

theorem pathComponentsL_full (n m u c f : List Char)
    (hn : ∀ x ∈ n, x ≠ '/') (hm : ∀ x ∈ m, x ≠ '/') (hu : ∀ x ∈ u, x ≠ '/')
    (hc0 : c ≠ []) (hc1 : c ≠ ['.']) (hc : ∀ x ∈ c, x ≠ '/')
    (hf0 : f ≠ []) (hf1 : f ≠ ['.']) (hf : ∀ x ∈ f, x ≠ '/') :
    pathComponentsL ('/' :: ("var".data ++ '/' :: ("log".data ++ '/' :: ("pods".data ++
        '/' :: (n ++ '_' :: (m ++ '_' :: (u ++ '/' :: (c ++ '/' :: f)))))))) =
      [['/'], "var".data, "log".data, "pods".data, n ++ '_' :: (m ++ '_' :: u), c, f] := by
  have hblock : n ++ '_' :: (m ++ '_' :: (u ++ '/' :: (c ++ '/' :: f))) =
      (n ++ '_' :: (m ++ '_' :: u)) ++ '/' :: (c ++ '/' :: f) := by
    simp [List.append_assoc]
  have hD : ∀ x ∈ n ++ '_' :: (m ++ '_' :: u), x ≠ '/' := by
    intro x hx
    rcases List.mem_append.1 hx with h | h
    · exact hn x h
    · rcases List.mem_cons.1 h with h | h
      · subst h; decide
      · rcases List.mem_append.1 h with h | h
        · exact hm x h
        · rcases List.mem_cons.1 h with h | h
          · subst h; decide
          · exact hu x h
  have hD0 : n ++ '_' :: (m ++ '_' :: u) ≠ [] := by
    intro h
    exact absurd (h ▸ List.mem_append_right n (List.mem_cons_self _ _)) (List.not_mem_nil _)
  have hD1 : n ++ '_' :: (m ++ '_' :: u) ≠ ['.'] := by
    intro h
    have := h ▸ List.mem_append_right n (List.mem_cons_self _ _)
    simp at this
  have hsplit : (('/' : Char) :: ("var".data ++ '/' :: ("log".data ++ '/' :: ("pods".data ++
      '/' :: (n ++ '_' :: (m ++ '_' :: (u ++ '/' :: (c ++ '/' :: f)))))))).splitOn '/' =
      [[], "var".data, "log".data, "pods".data, n ++ '_' :: (m ++ '_' :: u), c, f] := by
    rw [hblock, splitOn_sep_cons, splitOn_sep_append '/' "var".data (by decide),
      splitOn_sep_append '/' "log".data (by decide),
      splitOn_sep_append '/' "pods".data (by decide),
      splitOn_sep_append '/' (n ++ '_' :: (m ++ '_' :: u)) hD,
      splitOn_sep_append '/' c hc, splitOn_no_sep '/' f hf]
  have hroot : hasRootL ('/' :: ("var".data ++ '/' :: ("log".data ++ '/' :: ("pods".data ++
      '/' :: (n ++ '_' :: (m ++ '_' :: (u ++ '/' :: (c ++ '/' :: f)))))))) = true := rfl
  have hcur : startsCurDirL ('/' :: ("var".data ++ '/' :: ("log".data ++ '/' :: ("pods".data ++
      '/' :: (n ++ '_' :: (m ++ '_' :: (u ++ '/' :: (c ++ '/' :: f)))))))) = false := rfl
  unfold pathComponentsL
  rw [hsplit, hroot, hcur]
  simp only [if_true, if_false, List.nil_append]
  rw [List.filter]
  simp only [List.isEmpty_nil, Bool.not_true, Bool.false_and]
  rw [List.filter, filter_keep "var".data (by decide) (by decide)]
  rw [List.filter, filter_keep "log".data (by decide) (by decide)]
  rw [List.filter, filter_keep "pods".data (by decide) (by decide)]
  rw [List.filter, filter_keep _ hD0 hD1]
  rw [List.filter, filter_keep c hc0 hc1]
  rw [List.filter, filter_keep f hf0 hf1]
  rfl

theorem parse_of_rev3 (p : String) (f c d : String) (rest : List String)
    (h : (pathComponents p).reverse = f :: c :: d :: rest) :
    parse_log_file_path p =
      match (d.data.splitOn '_').map String.mk with
      | a :: b :: u :: _ => some ⟨a, b, u, c⟩
      | _ => none := by
  unfold parse_log_file_path
  rw [h]

theorem parse_eq_some {p : String} {f c d : String} {rest : List String}
    {a b u : List Char} {more : List (List Char)}
    (h1 : (pathComponents p).reverse = f :: c :: d :: rest)
    (h2 : d.data.splitOn '_' = a :: b :: u :: more) :
    parse_log_file_path p = some ⟨String.mk a, String.mk b, String.mk u, c⟩ := by
  rw [parse_of_rev3 p f c d rest h1, h2]
  simp only [List.map_cons]

theorem parse_eq_none_of_fields_short {p : String} {f c d : String} {rest : List String}
    (h1 : (pathComponents p).reverse = f :: c :: d :: rest)
    (h2 : (d.data.splitOn '_').length < 3) :
    parse_log_file_path p = none := by
  rw [parse_of_rev3 p f c d rest h1]
  rcases hs : d.data.splitOn '_' with _ | ⟨a, _ | ⟨b, _ | ⟨u, more⟩⟩⟩
  · rfl
  · rfl
  · rfl
  · exfalso
    rw [hs] at h2
    simp only [List.length_cons] at h2
    omega

theorem parse_eq_none_of_few {p : String} (h : (pathComponents p).length < 3) :
    parse_log_file_path p = none := by
  unfold parse_log_file_path
  rcases hr : (pathComponents p).reverse with _ | ⟨x, _ | ⟨y, _ | ⟨z, rest⟩⟩⟩
  · rfl
  · rfl
  · rfl
  · exfalso
    rw [← List.length_reverse, hr] at h
    simp only [List.length_cons] at h
    omega

/-! The claim theorems. -/

/-- C1 (amended): for namespace, name and uid strings containing neither an
underscore nor a separator, and container and file-name strings forming one
path segment each, parsing the path obtained by appending the container and
file segments to `build_pod_logs_directory ns nm uid` returns exactly the
supplied namespace, name, uid and container. -/
theorem C1_round_trip (ns nm uid cont file : String)
    (hns1 : '_' ∉ ns.data) (hnm1 : '_' ∉ nm.data) (huid1 : '_' ∉ uid.data)
    (hns2 : '/' ∉ ns.data) (hnm2 : '/' ∉ nm.data) (huid2 : '/' ∉ uid.data)
    (hcont : isOneSegment cont) (hfile : isOneSegment file) :
    parse_log_file_path (build_pod_logs_directory ns nm uid ++ "/" ++ cont ++ "/" ++ file)
      = some ⟨ns, nm, uid, cont⟩ := by
  obtain ⟨hc0, hc1, hc2⟩ := hcont
  obtain ⟨hf0, hf1, hf2⟩ := hfile
  have hc2' : ∀ x ∈ cont.data, x ≠ '/' := fun x hx e => hc2 (e ▸ hx)
  have hf2' : ∀ x ∈ file.data, x ≠ '/' := fun x hx e => hf2 (e ▸ hx)
  have hns2' : ∀ x ∈ ns.data, x ≠ '/' := fun x hx e => hns2 (e ▸ hx)
  have hnm2' : ∀ x ∈ nm.data, x ≠ '/' := fun x hx e => hnm2 (e ▸ hx)
  have huid2' : ∀ x ∈ uid.data, x ≠ '/' := fun x hx e => huid2 (e ▸ hx)
  have hns1' : ∀ x ∈ ns.data, x ≠ '_' := fun x hx e => hns1 (e ▸ hx)
  have hnm1' : ∀ x ∈ nm.data, x ≠ '_' := fun x hx e => hnm1 (e ▸ hx)
  have hD : (ns ++ "_" ++ nm ++ "_" ++ uid).data =
      ns.data ++ '_' :: (nm.data ++ '_' :: uid.data) := by
    simp [String.data_append, data_us, List.append_assoc]
  have hhead : (ns.data ++ '_' :: (nm.data ++ '_' :: uid.data)).head? ≠ some '/' := by
    cases hns : ns.data with
    | nil =>
      simp only [List.nil_append, List.head?_cons, ne_eq, Option.some.injEq]
      decide
    | cons x xs =>
      simp only [List.cons_append, List.head?_cons, ne_eq, Option.some.injEq]
      intro e
      exact hns2' x (hns ▸ List.mem_cons_self x xs) e
  have hroot : ¬ (hasRootL (ns ++ "_" ++ nm ++ "_" ++ uid).data = true) := by
    unfold hasRootL
    rw [hD]
    intro hcontr
    exact hhead (eq_of_beq hcontr)
  have hfull : (build_pod_logs_directory ns nm uid ++ "/" ++ cont ++ "/" ++ file).data =
      '/' :: ("var".data ++ '/' :: ("log".data ++ '/' :: ("pods".data ++
        '/' :: (ns.data ++ '_' :: (nm.data ++ '_' :: (uid.data ++
          '/' :: (cont.data ++ '/' :: file.data))))))) := by
    unfold build_pod_logs_directory
    rw [if_neg hroot]
    simp [String.data_append, data_root, data_us, data_slash, List.append_assoc]
  have hrev : (pathComponents
      (build_pod_logs_directory ns nm uid ++ "/" ++ cont ++ "/" ++ file)).reverse =
      String.mk file.data :: String.mk cont.data ::
        String.mk (ns.data ++ '_' :: (nm.data ++ '_' :: uid.data)) ::
          [String.mk "pods".data, String.mk "log".data, String.mk "var".data,
            String.mk ['/']] := by
    unfold pathComponents
    rw [hfull, pathComponentsL_full ns.data nm.data uid.data cont.data file.data
      hns2' hnm2' huid2' hc0 hc1 hc2' hf0 hf1 hf2']
    rfl
  have hsplitD : (String.mk (ns.data ++ '_' :: (nm.data ++ '_' :: uid.data))).data.splitOn '_' =
      ns.data :: nm.data :: uid.data :: [] := by
    show (ns.data ++ '_' :: (nm.data ++ '_' :: uid.data)).splitOn '_' = _
    rw [splitOn_sep_append '_' ns.data hns1', splitOn_sep_append '_' nm.data hnm1',
      splitOn_no_sep '_' uid.data (fun x hx e => huid1 (e ▸ hx))]
  exact parse_eq_some hrev hsplitD

/-- C1 counterexample: the claim as stated fails when the namespace contains a
separator. With namespace `"a/b"` (which contains no underscore) all the
claimed hypotheses hold, yet the round trip does not recover the namespace:
the parser returns pod namespace `"b"`. -/
theorem C1_counterexample :
    ('_' ∉ "a/b".data ∧ '_' ∉ "x".data ∧ '_' ∉ "y".data ∧
      isOneSegment "c" ∧ isOneSegment "f") ∧
    parse_log_file_path (build_pod_logs_directory "a/b" "x" "y" ++ "/" ++ "c" ++ "/" ++ "f") ≠
      some ⟨"a/b", "x", "y", "c"⟩ := by
  decide

/-- C1 witness: the round-trip theorem applied at concrete inputs. -/
theorem C1_witness :
    parse_log_file_path (build_pod_logs_directory "ns0" "nm0" "uid0" ++ "/" ++ "c0" ++ "/" ++ "0.log")
      = some ⟨"ns0", "nm0", "uid0", "c0"⟩ :=
  C1_round_trip "ns0" "nm0" "uid0" "c0" "0.log" (by decide) (by decide) (by decide)
    (by decide) (by decide) (by decide) (by decide) (by decide)

/-- C2: whenever the reversed component list of the input starts with a file
name, a container name and a pod directory whose underscore split yields at
least three fields, the parser returns the first three fields as namespace,
name and uid and the second-to-last component as container name, discarding
the last component; and the concrete spec example parses as stated. -/
theorem C2_parse_success :
    (∀ (p : String) (f c d : String) (rest : List String) (a b u : List Char)
        (more : List (List Char)),
      (pathComponents p).reverse = f :: c :: d :: rest →
      d.data.splitOn '_' = a :: b :: u :: more →
      parse_log_file_path p = some ⟨String.mk a, String.mk b, String.mk u, c⟩) ∧
    parse_log_file_path
        "/var/log/pods/sandbox0-ns_sandbox0-name_sandbox0-uid/sandbox0-container0-name/1.log" =
      some ⟨"sandbox0-ns", "sandbox0-name", "sandbox0-uid", "sandbox0-container0-name"⟩ := by
  constructor
  · intro p f c d rest a b u more h1 h2
    exact parse_eq_some h1 h2
  · rfl

/-- C2 witness: the general clause applied at a concrete path. -/
theorem C2_witness :
    parse_log_file_path "/var/log/pods/ns1_nm1_uid1/c1/0.log" =
      some ⟨"ns1", "nm1", "uid1", "c1"⟩ :=
  C2_parse_success.1 "/var/log/pods/ns1_nm1_uid1/c1/0.log" "0.log" "c1" "ns1_nm1_uid1"
    ["pods", "log", "var", "/"] "ns1".data "nm1".data "uid1".data [] (by decide) (by decide)

/-- C3 (amended): for every triple of strings whose combined directory name
does not begin with the separator (equivalently, the namespace does not start
with a slash), `build_pod_logs_directory` returns the root logs directory,
the separator, and the joined directory name; with all three inputs empty the
result is the root followed by the separator and two underscores. -/
theorem C3_build_composition :
    (∀ ns nm uid : String,
      hasRootL (ns ++ "_" ++ nm ++ "_" ++ uid).data = false →
      build_pod_logs_directory ns nm uid =
        K8S_LOGS_DIR ++ "/" ++ (ns ++ "_" ++ nm ++ "_" ++ uid)) ∧
    build_pod_logs_directory "" "" "" = K8S_LOGS_DIR ++ "/" ++ "__" := by
  constructor
  · intro ns nm uid h
    have h' : ¬ (hasRootL (ns ++ "_" ++ nm ++ "_" ++ uid).data = true) := by
      rw [h]; decide
    unfold build_pod_logs_directory
    rw [if_neg h']
  · decide

/-- C3 counterexample: with namespace `"/a"` the formatted directory name is
an absolute path, so `Path::join` discards the root entirely; the result is
`"/a_b_c"`, not the root joined with the directory name. -/
theorem C3_counterexample :
    build_pod_logs_directory "/a" "b" "c" ≠
        K8S_LOGS_DIR ++ "/" ++ ("/a" ++ "_" ++ "b" ++ "_" ++ "c") ∧
      build_pod_logs_directory "/a" "b" "c" = "/a_b_c" := by
  decide

/-- C3 witness: the amended composition law applied at the spec's example. -/
theorem C3_witness :
    hasRootL ("sandbox0-ns" ++ "_" ++ "sandbox0-name" ++ "_" ++ "sandbox0-uid").data = false ∧
    build_pod_logs_directory "sandbox0-ns" "sandbox0-name" "sandbox0-uid" =
      K8S_LOGS_DIR ++ "/" ++ ("sandbox0-ns" ++ "_" ++ "sandbox0-name" ++ "_" ++ "sandbox0-uid") :=
  ⟨by decide, C3_build_composition.1 "sandbox0-ns" "sandbox0-name" "sandbox0-uid" (by decide)⟩

/-- C4: every input with fewer than three path components parses to `none`,
and the three concrete spec examples all parse to `none`. -/
theorem C4_too_few_segments :
    (∀ p : String, (pathComponents p).length < 3 → parse_log_file_path p = none) ∧
    parse_log_file_path "/var/log/pods/other" = none ∧
    parse_log_file_path "qwe" = none ∧
    parse_log_file_path "" = none := by
  refine ⟨fun p h => parse_eq_none_of_few h, rfl, rfl, rfl⟩

/-- C4 witness: the general clause applied at the one-component path `"x"`. -/
theorem C4_witness :
    (pathComponents "x").length < 3 ∧ parse_log_file_path "x" = none :=
  ⟨by decide, C4_too_few_segments.1 "x" (by decide)⟩

/-- C5: an input with at least three path components whose third-from-last
component splits on the underscore into fewer than three fields parses to
`none`. -/
theorem C5_malformed_pod_dir (p : String) (f c d : String) (rest : List String)
    (h1 : (pathComponents p).reverse = f :: c :: d :: rest)
    (h2 : (d.data.splitOn '_').length < 3) :
    parse_log_file_path p = none :=
  parse_eq_none_of_fields_short h1 h2

/-- C5 witness: the theorem applied at the spec's malformed example, whose
third-from-last component `"log"` has no underscore. -/
theorem C5_witness : parse_log_file_path "/var/log/pods/other" = none :=
  C5_malformed_pod_dir "/var/log/pods/other" "other" "pods" "log" ["var", "/"]
    (by decide) (by decide)

/-- C6: when the third-from-last component has more than two underscores (its
split has a nonempty tail beyond the first three fields), parsing still
succeeds and the result is built from the first three fields only — the
leftover fields `more` do not occur in the result. -/
theorem C6_leftover_discarded (p : String) (f c d : String) (rest : List String)
    (a b u : List Char) (more : List (List Char))
    (h1 : (pathComponents p).reverse = f :: c :: d :: rest)
    (h2 : d.data.splitOn '_' = a :: b :: u :: more)
    (_h3 : more ≠ []) :
    parse_log_file_path p = some ⟨String.mk a, String.mk b, String.mk u, c⟩ :=
  parse_eq_some h1 h2

/-- C6 witness: a pod directory with three underscores; the fourth field is
discarded. -/
theorem C6_witness :
    parse_log_file_path "p/a_b_c_d/cont/0.log" = some ⟨"a", "b", "c", "cont"⟩ :=
  C6_leftover_discarded "p/a_b_c_d/cont/0.log" "0.log" "cont" "a_b_c_d" ["p"]
    "a".data "b".data "c".data ["d".data] (by decide) (by decide) (by decide)

/-- C7: any path whose last three components have the expected shape parses
successfully, whatever the remaining (arbitrary) prefix components are — the
parser never inspects the configured root. -/
theorem C7_root_independent (p : String) (f c d : String) (rest : List String)
    (h1 : (pathComponents p).reverse = f :: c :: d :: rest)
    (h2 : 3 ≤ (d.data.splitOn '_').length) :
    (parse_log_file_path p).isSome = true := by
  rcases hs : d.data.splitOn '_' with _ | ⟨a, _ | ⟨b, _ | ⟨u, more⟩⟩⟩
  · rw [hs] at h2; simp only [List.length_nil] at h2; exact absurd h2 (by omega)
  · rw [hs] at h2; simp only [List.length_cons, List.length_nil] at h2
    exact absurd h2 (by omega)
  · rw [hs] at h2; simp only [List.length_cons, List.length_nil] at h2
    exact absurd h2 (by omega)
  · rw [parse_eq_some h1 hs]; rfl

/-- C7 witness: a well-shaped suffix under a prefix that is not the configured
root still parses. -/
theorem C7_witness :
    (parse_log_file_path "/weird/prefix-dir/a_b_c/cont/0.log").isSome = true :=
  C7_root_independent "/weird/prefix-dir/a_b_c/cont/0.log" "0.log" "cont" "a_b_c"
    ["prefix-dir", "weird", "/"] (by decide) (by decide)

/-- C8: the parser is total and all-or-nothing — on every input it returns
either `none` or a record with all four fields populated — and the builder is
total with no failure mode. -/
theorem C8_totality :
    (∀ path : String, parse_log_file_path path = none ∨
      ∃ ns nm uid c : String, parse_log_file_path path = some ⟨ns, nm, uid, c⟩) ∧
    (∀ ns nm uid : String, ∃ out : String, build_pod_logs_directory ns nm uid = out) := by
  constructor
  · intro path
    rcases h : parse_log_file_path path with _ | info
    · exact Or.inl rfl
    · exact Or.inr ⟨info.pod_namespace, info.pod_name, info.pod_uid, info.container_name, rfl⟩
  · intro ns nm uid
    exact ⟨_, rfl⟩

/-- C9: every `none` result of the parser comes from one of exactly two
causes: fewer than three path components, or a third-from-last component
whose underscore split has fewer than three fields.  The non-text
(`to_str`) failure branch is unreachable: the input being a valid UTF-8
string, the conversion is the identity in the embedding. -/
theorem C9_none_characterization (p : String) (h : parse_log_file_path p = none) :
    (pathComponents p).length < 3 ∨
      ∃ (f c d : String) (rest : List String),
        (pathComponents p).reverse = f :: c :: d :: rest ∧
          (d.data.splitOn '_').length < 3 := by
  rcases hr : (pathComponents p).reverse with _ | ⟨x, _ | ⟨y, _ | ⟨z, rest⟩⟩⟩
  · left; rw [← List.length_reverse, hr]; simp only [List.length_nil]; omega
  · left; rw [← List.length_reverse, hr]; simp only [List.length_cons, List.length_nil]; omega
  · left; rw [← List.length_reverse, hr]; simp only [List.length_cons, List.length_nil]; omega
  · right
    refine ⟨x, y, z, rest, rfl, ?_⟩
    by_contra hlen
    push_neg at hlen
    rcases hs : z.data.splitOn '_' with _ | ⟨a, _ | ⟨b, _ | ⟨u, more⟩⟩⟩
    · rw [hs] at hlen; simp only [List.length_nil] at hlen; omega
    · rw [hs] at hlen; simp only [List.length_cons, List.length_nil] at hlen; omega
    · rw [hs] at hlen; simp only [List.length_cons, List.length_nil] at hlen; omega
    · rw [parse_eq_some hr hs] at h
      exact absurd h (by simp)

/-- C9 witness: the characterization applied at `"qwe"`, which parses to
`none`. -/
theorem C9_witness :
    parse_log_file_path "qwe" = none ∧
      ((pathComponents "qwe").length < 3 ∨
        ∃ (f c d : String) (rest : List String),
          (pathComponents "qwe").reverse = f :: c :: d :: rest ∧
            (d.data.splitOn '_').length < 3) :=
  ⟨by decide, C9_none_characterization "qwe" (by decide)⟩

/-- C10: component iteration normalises paths — the non-canonical path with
repeated and trailing separators parses to the same record as the canonical
one, an interior dot component is dropped, and an empty string is never a
path component of any input. -/
theorem C10_normalization :
    parse_log_file_path "a_b_c//container///1.log/" =
        parse_log_file_path "a_b_c/container/1.log" ∧
      parse_log_file_path "a_b_c/container/1.log" = some ⟨"a", "b", "c", "container"⟩ ∧
      pathComponents "a_b_c/./container/1.log" = pathComponents "a_b_c/container/1.log" ∧
      ∀ p : String, "" ∉ pathComponents p := by
  refine ⟨by decide, by decide, by decide, ?_⟩
  intro p hmem
  unfold pathComponents at hmem
  rw [List.mem_map] at hmem
  obtain ⟨l, hl, hmk⟩ := hmem
  have hnil : l = [] := congrArg String.data hmk
  subst hnil
  unfold pathComponentsL at hl
  rcases List.mem_append.1 hl with h | h
  · rcases List.mem_append.1 h with h | h
    · split at h <;> simp at h
    · split at h <;> simp at h
  · have hkeep := (List.mem_filter.1 h).2
    simp at hkeep

end PathHelpers
